import Mathlib

/-!
Verification of the response-extraction and normalization pipeline of
`app.py` (Harmattan clinical-coding assistant).

The central routine is `extract_json_from_string`, which runs

  re.search(r'```(?:json)?\s*([\[\{].*[\]\}])\s*```|([\[\{].*[\]\}])',
            text, re.DOTALL | re.IGNORECASE)

and returns group 1 if it matched, else group 2, else `None`.  We embed the
semantics of this specific search (leftmost match position, ordered
alternation, greedy `.*` and `\s*` with backtracking) as deterministic
functions on `List Char`.  Determinism holds because the two alternatives
start with distinct characters (a backtick vs. an opening bracket), `\s*`
consumes only whitespace while the characters that must follow it are
non-whitespace, and the greedy `.*` always ends at the last position whose
tail completes the pattern.

Strings are modelled as `List Char`; the backtick character is written
`'\x60'` and the curly braces `'\x7b'` / `'\x7d'`.
-/

namespace App

/-- Characters matched by Python's regex `\s` class (ASCII part; the inputs
relevant here are ASCII). -/
def pySpace (c : Char) : Bool :=
  c == ' ' || c == '\t' || c == '\n' || c == '\r' || c == '\x0b' || c == '\x0c'

/-- Character class `[\[\{]` of the extraction regex. -/
def isOpenBracket (c : Char) : Bool := c == '[' || c == '\x7b'

/-- Character class `[\]\}]` of the extraction regex. -/
def isCloseBracket (c : Char) : Bool := c == ']' || c == '\x7d'

/-- Longest prefix of `l` that ends at a closing-bracket character, i.e. the
greedy run of `.*[\]\}]` inside the bare-bracket alternative of the regex.
Returns `none` when `l` contains no closing bracket. -/
def takeToLastClose : List Char → Option (List Char)
  | [] => none
  | c :: rest =>
    match takeToLastClose rest with
    | some u => some (c :: u)
    | none => if isCloseBracket c then some [c] else none

/-- Does `l` consist of whitespace followed by three backticks (`\s*` + the
closing fence), followed by anything? -/
def startsWithFence : List Char → Bool
  | a :: b :: c :: _ => a == '\x60' && b == '\x60' && c == '\x60'
  | _ => false

/-- Tail condition after the captured group of the fenced alternative:
`\s*` then the closing triple backtick. -/
def fenceTail (l : List Char) : Bool :=
  startsWithFence (l.dropWhile pySpace)

/-- Longest prefix of `l` ending at a closing bracket whose tail satisfies
`fenceTail`: the greedy `.*[\]\}]` of the fenced alternative, whose
continuation `\s*` + three backticks must match afterwards. -/
def takeToLastCloseFenced : List Char → Option (List Char)
  | [] => none
  | c :: rest =>
    match takeToLastCloseFenced rest with
    | some u => some (c :: u)
    | none => if isCloseBracket c && fenceTail rest then some [c] else none

/-- The optional `(?:json)?` tag right after the opening fence
(case-insensitive, per `re.IGNORECASE`). -/
def stripJsonTag : List Char → List Char
  | a :: b :: c :: d :: r =>
    if a.toLower == 'j' && b.toLower == 's' && c.toLower == 'o' && d.toLower == 'n'
    then r
    else a :: b :: c :: d :: r
  | l => l

/-- Group-1 attempt of the fenced alternative, after the fence, the
optional tag and `\s*` have been consumed: `[\[\{]` then the greedy body. -/
def fencedGroup : List Char → Option (List Char)
  | d :: body =>
    if isOpenBracket d then (takeToLastCloseFenced body).map (fun u => d :: u)
    else none
  | [] => none

/-- Alternative 1 of the regex, anchored at the current search position:
`` ```(?:json)?\s*([\[\{].*[\]\}])\s*``` ``.  Returns the capture of
group 1 on success. -/
def matchFenced (t : List Char) : Option (List Char) :=
  match t with
  | a :: b :: c :: r1 =>
    if a == '\x60' && b == '\x60' && c == '\x60' then
      fencedGroup ((stripJsonTag r1).dropWhile pySpace)
    else none
  | _ => none

/-- Alternative 2 of the regex, anchored at the current search position:
`([\[\{].*[\]\}])`.  Returns the capture of group 2 on success. -/
def matchBare (t : List Char) : Option (List Char) :=
  match t with
  | c :: rest =>
    if isOpenBracket c then (takeToLastClose rest).map (fun u => c :: u)
    else none
  | [] => none

/-- `re.search`: scan positions left to right; at each position try the
fenced alternative first, then the bare alternative. -/
def searchJson : List Char → Option (List Char)
  | [] => none
  | c :: rest =>
    match matchFenced (c :: rest) with
    | some g => some g
    | none =>
      match matchBare (c :: rest) with
      | some g => some g
      | none => searchJson rest

/-- `extract_json_from_string` (app.py lines 230-253): empty input is
rejected up front, otherwise the regex search result (group 1 or group 2)
is returned. -/
def extract_json_from_string (text : List Char) : Option (List Char) :=
  if text = [] then none else searchJson text

/-- The seven characters of an opening fence with its `json` tag. -/
def fenceOpenJson : List Char := ['\x60', '\x60', '\x60', 'j', 's', 'o', 'n']

/-- A bare triple-backtick fence marker. -/
def fenceMarker : List Char := ['\x60', '\x60', '\x60']

/-- JSON values as produced by `json.loads`.  Numbers are modelled by an
integer carrier; no claim inspects numeric content. -/
inductive Json where
  | null : Json
  | bool (b : Bool) : Json
  | num (n : Int) : Json
  | str (s : List Char) : Json
  | arr (elems : List Json) : Json
  | obj (fields : List (List Char × Json)) : Json

/-- Python `isinstance(data, list)` on a parsed JSON value. -/
def Json.isArr : Json → Bool
  | Json.arr _ => true
  | _ => false

/-- Python `isinstance(data, dict)` on a parsed JSON value. -/
def Json.isObj : Json → Bool
  | Json.obj _ => true
  | _ => false

/-- Lines 286-298 of app.py: a parsed list is returned as-is, a parsed dict
is wrapped in a one-element list, any other JSON type is rejected. -/
def normalize_parsed : Json → Option (List Json)
  | Json.arr l => some l
  | Json.obj o => some [Json.obj o]
  | _ => none

/-- Parse-and-normalize step of `get_agent_response_async` (lines 282-314).
The `Option Json` input is the outcome of `json.loads` on the extracted
string: `none` models `json.JSONDecodeError` (invalid JSON syntax), caught
at line 299 and turned into an absent result. -/
def normalize : Option Json → Option (List Json)
  | none => none
  | some v => normalize_parsed v

/-- Outcome of `get_agent_response_async`, with the three error kinds named
as in the specification.  In the code all three error returns are `None`;
they are distinguished by the `st.error` branch that produced them
(lines 271-272, 276-280, 296-306). -/
inductive PipelineResult where
  | noResponseErr : PipelineResult
  | extractionFailed : PipelineResult
  | malformedPayload : PipelineResult
  | ok (batch : List Json) : PipelineResult

/-- Exception kinds handled by the `except` clauses of `run_agent`
(lines 199-227): `ClientAuthenticationError`, `HttpResponseError`,
`asyncio.TimeoutError`, and the catch-all `Exception`. -/
inductive CallFailure where
  | authError : CallFailure
  | httpError : CallFailure
  | timeoutErr : CallFailure
  | unexpectedErr : CallFailure

/-- Abstract environment for one `run_agent` invocation: either the Azure
credentials are missing (line 135), an exception strikes during the
`get_agent` call, an exception strikes during the `get_response` call, or
the agent answers with a response string. -/
inductive AgentEnv where
  | missingCreds : AgentEnv
  | failAtGetAgent (f : CallFailure) : AgentEnv
  | failAtGetResponse (f : CallFailure) : AgentEnv
  | success (response : List Char) : AgentEnv

/-- `run_agent` (lines 114-227): every failure path reports a user-visible
error via `st.error` and returns `None`; only a completed agent exchange
returns the response text. -/
def run_agent : AgentEnv → Option (List Char)
  | AgentEnv.success r => some r
  | _ => none

/-- Line 112 of app.py: `AGENT_CALL_TIMEOUT = 120.0` (seconds). -/
def AGENT_CALL_TIMEOUT : ℚ := 120

/-- The two awaited service calls inside `run_agent`: the agent-definition
retrieval (line 155) and the message exchange with the agent (line 178). -/
inductive AgentRequest where
  | getAgent : AgentRequest
  | getResponse : AgentRequest
deriving DecidableEq

/-- Requests issued by one `run_agent` invocation, each paired with the
timeout passed to `asyncio.wait_for`.  The code is straight-line: no loop
and no retry, so each call site is reached at most once, and a failure
before a call site suppresses it. -/
def run_agent_requests : AgentEnv → List (AgentRequest × ℚ)
  | AgentEnv.missingCreds => []
  | AgentEnv.failAtGetAgent _ => [(AgentRequest.getAgent, AGENT_CALL_TIMEOUT)]
  | AgentEnv.failAtGetResponse _ =>
    [(AgentRequest.getAgent, AGENT_CALL_TIMEOUT), (AgentRequest.getResponse, AGENT_CALL_TIMEOUT)]
  | AgentEnv.success _ =>
    [(AgentRequest.getAgent, AGENT_CALL_TIMEOUT), (AgentRequest.getResponse, AGENT_CALL_TIMEOUT)]

/-- `get_agent_response_async` (lines 255-314), parameterized by the raw
agent result and by the `json.loads` parser (Python stdlib, modelled
abstractly as a function into `Option Json`). -/
def get_agent_response_async (agentResult : Option (List Char))
    (loads : List Char → Option Json) : PipelineResult :=
  match agentResult with
  | none => PipelineResult.noResponseErr
  | some raw =>
    match extract_json_from_string raw with
    | none => PipelineResult.extractionFailed
    | some js =>
      match normalize (loads js) with
      | none => PipelineResult.malformedPayload
      | some l => PipelineResult.ok l

/-- One row of the results table: a parsed JSON record (dict). -/
abbrev RecordRow := List (List Char × Json)

/-- Python `row.get(key, default)` on a record. -/
def pyDictGet (r : RecordRow) (k : List Char) (d : Json) : Json :=
  match r.find? (fun p => p.1 == k) with
  | some p => p.2
  | none => d

/-- Loop body of the validation_form submit handler (app.py lines 497-500):
walk the displayed rows with their table index, keeping a row exactly when
its checkbox state `validate_{i}` is set. -/
def collectValidated (i : Nat) (rows : List RecordRow) (states : Nat → Bool) :
    List RecordRow :=
  match rows with
  | [] => []
  | r :: rs =>
    if states i then r :: collectValidated (i + 1) rs states
    else collectValidated (i + 1) rs states

/-- `validated_rows_data` as built by the submit handler: the loop starts
at table index 0. -/
def validated_rows_data (rows : List RecordRow) (states : Nat → Bool) :
    List RecordRow :=
  collectValidated 0 rows states

/-- Line 336 of app.py: the recap dialog's Code column, one entry per
validated row, `row.get('code', 'N/A')`. -/
def codes_to_display (validated : List RecordRow) : List Json :=
  validated.map (fun r => pyDictGet r ("code".toList) (Json.str ("N/A".toList)))

/-- Python `str.strip()` (whitespace both ends), used for the non-blank
check on the notes (line 416). -/
def pyStrip (s : List Char) : List Char :=
  ((s.dropWhile pySpace).reverse.dropWhile pySpace).reverse

/-- Session-scoped state touched by the Analyze handler: the stored
response batch and the per-row validation checkbox dictionary. -/
structure SessionState where
  agent_response_data : Option (List Json)
  validation_states : List (List Char × Bool)

/-- Python `validation_states.get(key, False)`. -/
def lookupValidation (l : List (List Char × Bool)) (k : List Char) : Bool :=
  match l.find? (fun p => p.1 == k) with
  | some p => p.2
  | none => false

/-- Analyze-button handler (app.py lines 415-423): with non-blank notes the
stored batch is overwritten with the new result (possibly `None`) and the
validation dictionary is reset to empty; with blank notes only a warning is
shown and the state is untouched. -/
def analyze_notes_click (s : SessionState) (notes : List Char)
    (result : Option (List Json)) : SessionState :=
  if pyStrip notes ≠ [] then
    { agent_response_data := result, validation_states := [] }
  else s

/-- Technical lemma: dropping a prefix keeps membership. -/
theorem mem_of_mem_dropWhile (p : Char → Bool) (l : List Char) (x : Char)
    (h : x ∈ l.dropWhile p) : x ∈ l := by
  induction l with
  | nil => simp [List.dropWhile] at h
  | cons a t ih =>
    cases hpa : p a with
    | true =>
      rw [List.dropWhile, hpa] at h
      exact List.mem_cons_of_mem a (ih h)
    | false =>
      rw [List.dropWhile, hpa] at h
      exact h

/-- Technical lemma: stripping the optional `json` tag keeps membership. -/
theorem mem_of_mem_stripJsonTag (l : List Char) (x : Char)
    (h : x ∈ stripJsonTag l) : x ∈ l := by
  rcases l with _ | ⟨a, _ | ⟨b, _ | ⟨c, _ | ⟨d, r⟩⟩⟩⟩ <;>
    first
    | exact h
    | · by_cases hc : (a.toLower == 'j' && b.toLower == 's' &&
          c.toLower == 'o' && d.toLower == 'n') = true
        · rw [stripJsonTag, if_pos hc] at h
          simp [h]
        · rwa [stripJsonTag, if_neg hc] at h

/-- Technical lemma: the fenced alternative needs an opening bracket. -/
theorem matchFenced_none_of_no_open (t : List Char)
    (h : ∀ c ∈ t, isOpenBracket c = false) : matchFenced t = none := by
  rcases t with _ | ⟨a, _ | ⟨b, _ | ⟨c, r⟩⟩⟩
  · rfl
  · rfl
  · rfl
  · rw [matchFenced]
    by_cases hb : (a == '\x60' && b == '\x60' && c == '\x60') = true
    · rw [if_pos hb]
      cases hdrop : (stripJsonTag r).dropWhile pySpace with
      | nil => rfl
      | cons d body =>
        have hd : d ∈ a :: b :: c :: r := by
          have : d ∈ (stripJsonTag r).dropWhile pySpace := by
            rw [hdrop]; exact List.mem_cons_self d body
          have : d ∈ stripJsonTag r := mem_of_mem_dropWhile _ _ _ this
          have : d ∈ r := mem_of_mem_stripJsonTag _ _ this
          simp [this]
        simp [fencedGroup, h d hd]
    · rw [if_neg hb]

/-- Technical lemma: the bare alternative needs an opening bracket. -/
theorem matchBare_none_of_no_open (t : List Char)
    (h : ∀ c ∈ t, isOpenBracket c = false) : matchBare t = none := by
  cases t with
  | nil => rfl
  | cons c rest =>
    rw [matchBare, if_neg]
    simp [h c (List.mem_cons_self c rest)]

/-- Technical lemma: the regex search fails on text without opening
brackets. -/
theorem searchJson_none_of_no_open (t : List Char)
    (h : ∀ c ∈ t, isOpenBracket c = false) : searchJson t = none := by
  induction t with
  | nil => rfl
  | cons c rest ih =>
    rw [searchJson, matchFenced_none_of_no_open _ h,
      matchBare_none_of_no_open _ h]
    exact ih (fun x hx => h x (List.mem_cons_of_mem c hx))

/-- Claim C5: for any text containing no bracket characters, the extractor
returns an absent result, and the pipeline then reports the
ExtractionFailed outcome (independently of the parser, i.e. without the
input being modified or the call retried). -/
theorem no_bracket_extraction_failed (raw : List Char)
    (loads : List Char → Option Json)
    (h : ∀ c ∈ raw, isOpenBracket c = false ∧ isCloseBracket c = false) :
    extract_json_from_string raw = none ∧
      get_agent_response_async (some raw) loads = PipelineResult.extractionFailed := by
  have hx : extract_json_from_string raw = none := by
    rw [extract_json_from_string]
    split
    · rfl
    · exact searchJson_none_of_no_open raw (fun c hc => (h c hc).1)
  exact ⟨hx, by simp [get_agent_response_async, hx]⟩

/-- Witness for C5: the bracket-free text `"no json here"` fails extraction
and yields the ExtractionFailed outcome. -/
theorem no_bracket_extraction_failed_witness :
    extract_json_from_string ("no json here".toList) = none ∧
      get_agent_response_async (some ("no json here".toList)) (fun _ => none) =
        PipelineResult.extractionFailed :=
  no_bracket_extraction_failed ("no json here".toList) (fun _ => none) (by decide)

/-- Claim C2: every successful result of the normalization step is a list:
when the parsed JSON value is a single mapping it is wrapped into a
one-element list, and when it is an array the array itself is the batch, so
a ResponseBatch is always a list regardless of the payload shape. -/
theorem normalize_result_is_list (r : Option Json) (l : List Json)
    (h : normalize r = some l) :
    ∃ v, r = some v ∧
      (v = Json.arr l ∨ ∃ o, v = Json.obj o ∧ l = [Json.obj o]) := by
  cases r with
  | none => simp [normalize] at h
  | some v =>
    cases v with
    | arr elems =>
      simp only [normalize, normalize_parsed, Option.some.injEq] at h
      exact ⟨Json.arr elems, rfl, Or.inl (by rw [h])⟩
    | obj o =>
      simp only [normalize, normalize_parsed, Option.some.injEq] at h
      exact ⟨Json.obj o, rfl, Or.inr ⟨o, rfl, h.symm⟩⟩
    | null => simp [normalize, normalize_parsed] at h
    | bool b => simp [normalize, normalize_parsed] at h
    | num n => simp [normalize, normalize_parsed] at h
    | str s => simp [normalize, normalize_parsed] at h

/-- Witness for C2: the bare object from the spec example is wrapped into a
one-element list. -/
theorem normalize_result_is_list_witness :
    ∃ v, some (Json.obj [("code".toList, Json.str ("I10".toList))]) = some v ∧
      (v = Json.arr [Json.obj [("code".toList, Json.str ("I10".toList))]] ∨
        ∃ o, v = Json.obj o ∧
          [Json.obj [("code".toList, Json.str ("I10".toList))]] = [Json.obj o]) :=
  normalize_result_is_list _ _ rfl

/-- Claim C3: the normalization step yields an absent result (the
MalformedPayload outcome) exactly when `json.loads` fails or when the
parsed value is neither a list nor a mapping; through the pipeline this is
precisely when `get_agent_response_async` reports `malformedPayload` on an
extracted span; in particular the bare scalar `"hello"` is rejected. -/
theorem normalize_malformed_iff :
    (∀ r : Option Json, normalize r = none ↔
      (r = none ∨ ∃ v, r = some v ∧ Json.isArr v = false ∧ Json.isObj v = false)) ∧
    normalize (some (Json.str ("hello".toList))) = none ∧
    (∀ raw js loads, extract_json_from_string raw = some js →
      (get_agent_response_async (some raw) loads = PipelineResult.malformedPayload ↔
        normalize (loads js) = none)) := by
  refine ⟨?_, rfl, ?_⟩
  · intro r
    cases r with
    | none => simp [normalize]
    | some v =>
      constructor
      · intro h
        refine Or.inr ⟨v, rfl, ?_, ?_⟩
        · cases v <;> first | rfl | simp [normalize, normalize_parsed] at h
        · cases v <;> first | rfl | simp [normalize, normalize_parsed] at h
      · rintro (h | ⟨w, hw, ha, ho⟩)
        · exact Option.noConfusion h
        · cases Option.some.inj hw
          cases v <;> simp_all [normalize, normalize_parsed, Json.isArr, Json.isObj]
  · intro raw js loads hx
    cases hn : normalize (loads js) with
    | none => simp [get_agent_response_async, hx, hn]
    | some l => simp [get_agent_response_async, hx, hn]

/-- Witness for C3: on the raw text `[1]` with a parser that yields the
scalar `"hello"`, the pipeline reports the MalformedPayload outcome. -/
theorem normalize_malformed_iff_witness :
    get_agent_response_async (some ("[1]".toList))
      (fun _ => some (Json.str ("hello".toList))) = PipelineResult.malformedPayload :=
  (normalize_malformed_iff.2.2 ("[1]".toList) ("[1]".toList)
    (fun _ => some (Json.str ("hello".toList))) rfl).mpr rfl

/-- Claim C6: every agent-call failure (missing credentials, auth error,
HTTP error, timeout, or unexpected exception, at either service call)
makes `run_agent` return an absent result, and the caller then reports the
NoResponse outcome, independently of the parser, i.e. without extraction or
parsing influencing the result; no failure kind is retried. -/
theorem agent_failure_no_response (env : AgentEnv) (loads : List Char → Option Json)
    (h : ∀ r, env ≠ AgentEnv.success r) :
    run_agent env = none ∧
      get_agent_response_async (run_agent env) loads = PipelineResult.noResponseErr := by
  cases env with
  | missingCreds => exact ⟨rfl, rfl⟩
  | failAtGetAgent f => exact ⟨rfl, rfl⟩
  | failAtGetResponse f => exact ⟨rfl, rfl⟩
  | success r => exact absurd rfl (h r)

/-- Witness for C6: a timeout during the agent exchange yields an absent
result and the NoResponse outcome. -/
theorem agent_failure_no_response_witness :
    run_agent (AgentEnv.failAtGetResponse CallFailure.timeoutErr) = none ∧
      get_agent_response_async
        (run_agent (AgentEnv.failAtGetResponse CallFailure.timeoutErr))
        (fun _ => none) = PipelineResult.noResponseErr :=
  agent_failure_no_response (AgentEnv.failAtGetResponse CallFailure.timeoutErr)
    (fun _ => none) (fun _ h => AgentEnv.noConfusion h)

/-- Claim C7: one `run_agent` invocation issues at most one message
exchange with the agent (exactly one whenever the exchange is reached, in
particular on every successful submission), every issued service call
carries the fixed `AGENT_CALL_TIMEOUT` bound, that bound is 120 seconds,
and a timed-out exchange is abandoned: it produces no response. -/
theorem single_timed_agent_call (env : AgentEnv) (r : List Char) :
    ((run_agent_requests env).map Prod.fst).count AgentRequest.getResponse ≤ 1 ∧
    ((run_agent_requests (AgentEnv.success r)).map Prod.fst).count
      AgentRequest.getResponse = 1 ∧
    (run_agent_requests env).all (fun q => q.2 == AGENT_CALL_TIMEOUT) = true ∧
    AGENT_CALL_TIMEOUT = (120 : ℚ) ∧
    run_agent (AgentEnv.failAtGetResponse CallFailure.timeoutErr) = none := by
  refine ⟨?_, ?_, ?_, rfl, rfl⟩
  · cases env <;> simp [run_agent_requests, List.count_cons]
  · simp [run_agent_requests, List.count_cons]
  · cases env <;> simp [run_agent_requests]

/-- Claim C4: a parsed JSON list is returned as-is by the normalization
step, unchanged in length, order and element content; in particular the
spec's example `[{"code":"I10"}]` passes through unchanged. -/
theorem normalize_list_identity :
    (∀ l : List Json, normalize (some (Json.arr l)) = some l) ∧
    normalize (some (Json.arr [Json.obj [("code".toList, Json.str ("I10".toList))]])) =
      some [Json.obj [("code".toList, Json.str ("I10".toList))]] :=
  ⟨fun _ => rfl, rfl⟩

/-- Technical lemma: a successful `takeToLastClose` capture ends with a
closing bracket. -/
theorem takeToLastClose_shape (l : List Char) :
    ∀ u, takeToLastClose l = some u →
      ∃ m c2, u = m ++ [c2] ∧ isCloseBracket c2 = true := by
  induction l with
  | nil => intro u h; exact Option.noConfusion h
  | cons c rest ih =>
    intro u h
    rw [takeToLastClose] at h
    cases hrec : takeToLastClose rest with
    | some v =>
      rw [hrec] at h
      cases h
      obtain ⟨m, c2, hv, hc2⟩ := ih v hrec
      exact ⟨c :: m, c2, by simp [hv], hc2⟩
    | none =>
      rw [hrec] at h
      by_cases hc : isCloseBracket c = true
      · rw [if_pos hc] at h
        cases h
        exact ⟨[], c, rfl, hc⟩
      · rw [if_neg hc] at h
        exact Option.noConfusion h

/-- Technical lemma: a successful `takeToLastCloseFenced` capture ends with
a closing bracket. -/
theorem takeToLastCloseFenced_shape (l : List Char) :
    ∀ u, takeToLastCloseFenced l = some u →
      ∃ m c2, u = m ++ [c2] ∧ isCloseBracket c2 = true := by
  induction l with
  | nil => intro u h; exact Option.noConfusion h
  | cons c rest ih =>
    intro u h
    rw [takeToLastCloseFenced] at h
    cases hrec : takeToLastCloseFenced rest with
    | some v =>
      rw [hrec] at h
      cases h
      obtain ⟨m, c2, hv, hc2⟩ := ih v hrec
      exact ⟨c :: m, c2, by simp [hv], hc2⟩
    | none =>
      rw [hrec] at h
      by_cases hc : (isCloseBracket c && fenceTail rest) = true
      · rw [if_pos hc] at h
        cases h
        exact ⟨[], c, rfl, (Bool.and_eq_true _ _ |>.mp hc).1⟩
      · rw [if_neg hc] at h
        exact Option.noConfusion h

/-- Technical lemma: a fenced-alternative capture starts with an opening
bracket and ends with a closing bracket. -/
theorem matchFenced_shape (t : List Char) (g : List Char)
    (h : matchFenced t = some g) :
    ∃ c1 m c2, g = c1 :: (m ++ [c2]) ∧
      isOpenBracket c1 = true ∧ isCloseBracket c2 = true := by
  rcases t with _ | ⟨a, _ | ⟨b, _ | ⟨c, r⟩⟩⟩
  · exact Option.noConfusion h
  · exact Option.noConfusion h
  · exact Option.noConfusion h
  · rw [matchFenced] at h
    by_cases hb : (a == '\x60' && b == '\x60' && c == '\x60') = true
    · rw [if_pos hb] at h
      cases hdrop : (stripJsonTag r).dropWhile pySpace with
      | nil => rw [hdrop] at h; exact Option.noConfusion h
      | cons d body =>
        rw [hdrop, fencedGroup] at h
        by_cases hd : isOpenBracket d = true
        · rw [if_pos hd] at h
          cases hu : takeToLastCloseFenced body with
          | none => rw [hu] at h; exact Option.noConfusion h
          | some u =>
            rw [hu] at h
            cases h
            obtain ⟨m, c2, humc, hc2⟩ := takeToLastCloseFenced_shape body u hu
            exact ⟨d, m, c2, by simp [humc], hd, hc2⟩
        · rw [if_neg hd] at h
          exact Option.noConfusion h
    · rw [if_neg hb] at h
      exact Option.noConfusion h

/-- Technical lemma: a bare-alternative capture starts with an opening
bracket and ends with a closing bracket. -/
theorem matchBare_shape (t : List Char) (g : List Char)
    (h : matchBare t = some g) :
    ∃ c1 m c2, g = c1 :: (m ++ [c2]) ∧
      isOpenBracket c1 = true ∧ isCloseBracket c2 = true := by
  cases t with
  | nil => exact Option.noConfusion h
  | cons c rest =>
    rw [matchBare] at h
    by_cases hc : isOpenBracket c = true
    · rw [if_pos hc] at h
      cases hu : takeToLastClose rest with
      | none => rw [hu] at h; exact Option.noConfusion h
      | some u =>
        rw [hu] at h
        cases h
        obtain ⟨m, c2, humc, hc2⟩ := takeToLastClose_shape rest u hu
        exact ⟨c, m, c2, by rw [humc], hc, hc2⟩
    · rw [if_neg hc] at h
      exact Option.noConfusion h

/-- Technical lemma: any successful regex search yields a capture starting
with an opening bracket and ending with a closing bracket. -/
theorem searchJson_shape (t : List Char) :
    ∀ g, searchJson t = some g →
      ∃ c1 m c2, g = c1 :: (m ++ [c2]) ∧
        isOpenBracket c1 = true ∧ isCloseBracket c2 = true := by
  induction t with
  | nil => intro g h; exact Option.noConfusion h
  | cons c rest ih =>
    intro g h
    rw [searchJson] at h
    cases hf : matchFenced (c :: rest) with
    | some g1 =>
      rw [hf] at h
      cases h
      exact matchFenced_shape _ _ hf
    | none =>
      rw [hf] at h
      cases hb : matchBare (c :: rest) with
      | some g2 =>
        rw [hb] at h
        cases h
        exact matchBare_shape _ _ hb
      | none =>
        rw [hb] at h
        exact ih g h

/-- Claim C9: every non-absent extraction result begins with `[` or an
opening brace and ends with `]` or a closing brace; the two bracket kinds
need not correspond (see the witness, where a span opened by `[` is closed
by a brace), and balance is never checked, so the returned span need not be
valid JSON. -/
theorem extract_bracket_delimited (t : List Char) (g : List Char)
    (h : extract_json_from_string t = some g) :
    ∃ c1 m c2, g = c1 :: (m ++ [c2]) ∧
      isOpenBracket c1 = true ∧ isCloseBracket c2 = true := by
  rw [extract_json_from_string] at h
  split at h
  · exact Option.noConfusion h
  · exact searchJson_shape t g h

/-- Witness for C9: on the two-character input `[` + closing brace the
extractor returns that span unchanged, a capture whose opening and closing
bracket kinds do not correspond and which is not valid JSON. -/
theorem extract_bracket_delimited_witness :
    extract_json_from_string ['[', '\x7d'] = some ['[', '\x7d'] ∧
      ∃ c1 m c2, (['[', '\x7d'] : List Char) = c1 :: (m ++ [c2]) ∧
        isOpenBracket c1 = true ∧ isCloseBracket c2 = true :=
  ⟨rfl, extract_bracket_delimited ['[', '\x7d'] ['[', '\x7d'] rfl⟩

/-- Technical lemma: whitespace characters are not closing brackets. -/
theorem pySpace_not_close (c : Char) (h : pySpace c = true) :
    isCloseBracket c = false := by
  simp [pySpace] at h
  rcases h with ((((rfl | rfl) | rfl) | rfl) | rfl) | rfl <;> rfl

/-- Technical lemma: opening brackets are not whitespace. -/
theorem isOpenBracket_not_space (c : Char) (h : isOpenBracket c = true) :
    pySpace c = false := by
  simp [isOpenBracket] at h
  rcases h with rfl | rfl <;> rfl

/-- Technical lemma: `dropWhile` consumes a prefix it accepts wholesale. -/
theorem dropWhile_append_of_forall (p : Char → Bool) (w l : List Char)
    (hw : ∀ c ∈ w, p c = true) :
    List.dropWhile p (w ++ l) = List.dropWhile p l := by
  induction w with
  | nil => rfl
  | cons a w' ih =>
    have ha : p a = true := hw a (List.mem_cons_self a w')
    rw [List.cons_append, List.dropWhile, ha]
    exact ih (fun c hc => hw c (List.mem_cons_of_mem a hc))

/-- Technical lemma: without closing brackets the fenced greedy body fails. -/
theorem takeToLastCloseFenced_none_of_no_close (l : List Char)
    (h : ∀ c ∈ l, isCloseBracket c = false) : takeToLastCloseFenced l = none := by
  induction l with
  | nil => rfl
  | cons c rest ih =>
    rw [takeToLastCloseFenced, ih (fun x hx => h x (List.mem_cons_of_mem c hx))]
    simp [h c (List.mem_cons_self c rest)]

/-- Technical lemma: whitespace followed by a fence marker satisfies the
closing-fence tail condition. -/
theorem fenceTail_ws_fence (ws post : List Char) (hws : ∀ c ∈ ws, pySpace c = true) :
    fenceTail (ws ++ (fenceMarker ++ post)) = true := by
  rw [fenceTail, dropWhile_append_of_forall _ _ _ hws]
  rfl

/-- Technical lemma: when the only closing bracket followed by a valid
closing fence is the final bracket of the payload, the greedy body captures
exactly the payload. -/
theorem takeToLastCloseFenced_exact (mid ws2 post : List Char) (cl : Char)
    (hcl : isCloseBracket cl = true)
    (hws2 : ∀ c ∈ ws2, pySpace c = true)
    (hpost : ∀ c ∈ post, isCloseBracket c = false) :
    takeToLastCloseFenced ((mid ++ [cl]) ++ (ws2 ++ (fenceMarker ++ post)))
      = some (mid ++ [cl]) := by
  induction mid with
  | nil =>
    have hnone : takeToLastCloseFenced (ws2 ++ (fenceMarker ++ post)) = none := by
      apply takeToLastCloseFenced_none_of_no_close
      intro c hc
      rcases List.mem_append.mp hc with hcw | hcf
      · exact pySpace_not_close c (hws2 c hcw)
      · rcases List.mem_append.mp hcf with hcm | hcp
        · simp [fenceMarker] at hcm
          subst hcm
          rfl
        · exact hpost c hcp
    simp only [List.nil_append, List.cons_append]
    rw [takeToLastCloseFenced, hnone]
    simp [hcl, fenceTail_ws_fence _ _ hws2]
  | cons a mid' ih =>
    rw [show ((a :: mid') ++ [cl]) ++ (ws2 ++ (fenceMarker ++ post))
        = a :: ((mid' ++ [cl]) ++ (ws2 ++ (fenceMarker ++ post))) by simp]
    rw [takeToLastCloseFenced, ih]
    simp

/-- Technical lemma: stripping the tag after the fence. -/
theorem stripJsonTag_json (l : List Char) :
    stripJsonTag ('j' :: 's' :: 'o' :: 'n' :: l) = l := rfl

/-- Technical lemma: the fenced alternative only fires on a backtick. -/
theorem matchFenced_none_of_head (p : Char) (t : List Char) (h : p ≠ '\x60') :
    matchFenced (p :: t) = none := by
  rcases t with _ | ⟨b, _ | ⟨c, r⟩⟩
  · rfl
  · rfl
  · rw [matchFenced, if_neg]
    simp [h]

/-- Technical lemma: the bare alternative only fires on an opening
bracket. -/
theorem matchBare_none_of_head (p : Char) (t : List Char)
    (h : isOpenBracket p = false) : matchBare (p :: t) = none := by
  rw [matchBare, if_neg]
  simp [h]

/-- Technical lemma: the search skips a prefix without backticks or opening
brackets. -/
theorem searchJson_append (pre rest : List Char)
    (hpre : ∀ c ∈ pre, c ≠ '\x60' ∧ isOpenBracket c = false) :
    searchJson (pre ++ rest) = searchJson rest := by
  induction pre with
  | nil => rfl
  | cons p pre' ih =>
    obtain ⟨hp1, hp2⟩ := hpre p (List.mem_cons_self p pre')
    rw [List.cons_append, searchJson, matchFenced_none_of_head _ _ hp1,
      matchBare_none_of_head _ _ hp2]
    exact ih (fun c hc => hpre c (List.mem_cons_of_mem p hc))

/-- Technical lemma: a successful fenced match at the current position is
the search result. -/
theorem searchJson_of_matchFenced (c : Char) (rest g : List Char)
    (h : matchFenced (c :: rest) = some g) : searchJson (c :: rest) = some g := by
  rw [searchJson, h]

/-- Technical lemma: value of the fenced alternative on a well-formed
fenced payload whose closing fence is not followed by further closing
brackets. -/
theorem matchFenced_at_fence (ws1 mid ws2 post : List Char) (bo cl : Char)
    (hws1 : ∀ c ∈ ws1, pySpace c = true)
    (hbo : isOpenBracket bo = true)
    (hcl : isCloseBracket cl = true)
    (hws2 : ∀ c ∈ ws2, pySpace c = true)
    (hpost : ∀ c ∈ post, isCloseBracket c = false) :
    matchFenced (fenceOpenJson ++
        (ws1 ++ ((bo :: (mid ++ [cl])) ++ (ws2 ++ (fenceMarker ++ post)))))
      = some (bo :: (mid ++ [cl])) := by
  have hbo_sp : pySpace bo = false := isOpenBracket_not_space bo hbo
  have hdrop : (stripJsonTag ('j' :: 's' :: 'o' :: 'n' ::
      (ws1 ++ ((bo :: (mid ++ [cl])) ++ (ws2 ++ (fenceMarker ++ post)))))).dropWhile pySpace
      = bo :: ((mid ++ [cl]) ++ (ws2 ++ (fenceMarker ++ post))) := by
    rw [stripJsonTag_json, dropWhile_append_of_forall _ _ _ hws1, List.cons_append,
      List.dropWhile, hbo_sp]
  show matchFenced ('\x60' :: '\x60' :: '\x60' :: 'j' :: 's' :: 'o' :: 'n' ::
      (ws1 ++ ((bo :: (mid ++ [cl])) ++ (ws2 ++ (fenceMarker ++ post))))) = _
  rw [matchFenced, if_pos (by decide), hdrop, fencedGroup, if_pos hbo,
    takeToLastCloseFenced_exact mid ws2 post cl hcl hws2 hpost]
  rfl

/-- Claim C1 (amended): when the opening ```json fence is the first
possible match — no opening bracket and no backtick occurs before it — and
no closing bracket occurs after the closing fence, the extractor returns
exactly the bracketed payload of the fence, fences and surrounding
whitespace removed. -/
theorem fenced_extract_exact (pre ws1 mid ws2 post : List Char) (bo cl : Char)
    (hpre : ∀ c ∈ pre, c ≠ '\x60' ∧ isOpenBracket c = false)
    (hws1 : ∀ c ∈ ws1, pySpace c = true)
    (hbo : isOpenBracket bo = true)
    (hcl : isCloseBracket cl = true)
    (hws2 : ∀ c ∈ ws2, pySpace c = true)
    (hpost : ∀ c ∈ post, isCloseBracket c = false) :
    extract_json_from_string
      (pre ++ (fenceOpenJson ++
        (ws1 ++ ((bo :: (mid ++ [cl])) ++ (ws2 ++ (fenceMarker ++ post))))))
      = some (bo :: (mid ++ [cl])) := by
  have hne : (pre ++ (fenceOpenJson ++
      (ws1 ++ ((bo :: (mid ++ [cl])) ++ (ws2 ++ (fenceMarker ++ post)))))) ≠ [] := by
    simp [fenceOpenJson]
  rw [extract_json_from_string, if_neg hne, searchJson_append _ _ hpre]
  exact searchJson_of_matchFenced _ _ _
    (matchFenced_at_fence ws1 mid ws2 post bo cl hws1 hbo hcl hws2 hpost)

/-- Witness for the amended C1: a prose prefix without brackets, a fenced
`[1, 2]` payload, and a bracket-free suffix. -/
theorem fenced_extract_exact_witness :
    extract_json_from_string
      (("Answer: ".toList) ++ (fenceOpenJson ++
        (['\n'] ++ (('[' :: ("1, 2".toList ++ [']'])) ++
          (['\n'] ++ (fenceMarker ++ (" done".toList)))))))
      = some ('[' :: ("1, 2".toList ++ [']'])) :=
  fenced_extract_exact ("Answer: ".toList) ['\n'] ("1, 2".toList) ['\n']
    (" done".toList) '[' ']'
    (by decide) (by decide) (by decide) (by decide) (by decide) (by decide)

/-- Counterexample to C1 as stated: the text contains a well-formed
```json fenced array `[1]`, but because an opening bracket occurs before
the fence, the leftmost-match rule makes the extractor return the bare
bracketed span `"[a ```json\n[1]"` instead of the fenced content `"[1]"`:
the ```json fence is not preferred. -/
theorem fenced_preference_counterexample :
    extract_json_from_string (("[a \x60\x60\x60json\n[1]\n\x60\x60\x60").toList)
      = some (("[a \x60\x60\x60json\n[1]").toList) ∧
    ("[a \x60\x60\x60json\n[1]").toList ≠ ("[1]").toList := by
  constructor
  · rfl
  · decide

/-- Technical lemma: the submit-handler loop starting at index `i` keeps
exactly the rows whose indexed checkbox is set, in table order. -/
theorem collectValidated_eq_filter (rows : List RecordRow) :
    ∀ i states, collectValidated i rows states =
      ((rows.enumFrom i).filter (fun p => states p.1)).map Prod.snd := by
  induction rows with
  | nil => intro i states; rfl
  | cons r rs ih =>
    intro i states
    by_cases h : states i
    · simp [collectValidated, List.enumFrom, List.filter, h, ih]
    · simp [collectValidated, List.enumFrom, List.filter, h, ih]

/-- Claim C8: on submit, the validated rows are exactly the rows whose
checkbox is marked, in the order of the displayed table, and the recap
lists exactly the `code` field of those rows; unmarked rows contribute
nothing. -/
theorem recap_lists_validated_codes (rows : List RecordRow) (states : Nat → Bool) :
    validated_rows_data rows states =
      ((rows.enum.filter (fun p => states p.1)).map Prod.snd) ∧
    codes_to_display (validated_rows_data rows states) =
      ((rows.enum.filter (fun p => states p.1)).map Prod.snd).map
        (fun r => pyDictGet r ("code".toList) (Json.str ("N/A".toList))) := by
  have h := collectValidated_eq_filter rows 0 states
  refine ⟨?_, ?_⟩
  · simpa [validated_rows_data, List.enum] using h
  · simp only [codes_to_display, validated_rows_data]
    rw [show collectValidated 0 rows states =
      ((rows.enum.filter (fun p => states p.1)).map Prod.snd) by
        simpa [List.enum] using h]

/-- Claim C10: an Analyze click with non-blank notes overwrites the stored
response batch with the new result (possibly absent) and empties the
validation dictionary, so every per-row checkbox key reads back as
unselected afterwards. -/
theorem analyze_overwrites_and_resets (s : SessionState) (notes : List Char)
    (result : Option (List Json)) (h : pyStrip notes ≠ []) :
    (analyze_notes_click s notes result).agent_response_data = result ∧
    (analyze_notes_click s notes result).validation_states = [] ∧
    ∀ k, lookupValidation ((analyze_notes_click s notes result).validation_states) k
      = false := by
  refine ⟨?_, ?_, ?_⟩ <;> simp [analyze_notes_click, h, lookupValidation, List.find?]

/-- Witness for C10: after analyzing the notes `"note"`, a previously set
checkbox key reads back as unselected and the failed result overwrites the
stored batch. -/
theorem analyze_overwrites_and_resets_witness :
    (analyze_notes_click
        ⟨some [Json.null], [("validate_0".toList, true)]⟩
        ("note".toList) none).agent_response_data = none ∧
    (analyze_notes_click
        ⟨some [Json.null], [("validate_0".toList, true)]⟩
        ("note".toList) none).validation_states = [] ∧
    ∀ k, lookupValidation ((analyze_notes_click
        ⟨some [Json.null], [("validate_0".toList, true)]⟩
        ("note".toList) none).validation_states) k = false :=
  analyze_overwrites_and_resets _ _ _ (by decide)

end App
